import Mathlib

set_option maxRecDepth 8000

deriving instance DecidableEq for Except

/-!
Verification development for the numeric scanning / conversion functions of the
fastnumbers repository.  The repository's source (its timing notebooks) defines
pure-Python reference implementations of the library's API family:
`int_re`, `int_try`, `float_re`, `float_try`, `real_re`, `real_try`,
`forceint_re`, `forceint_try`, `isint_re`, `isint_try`, `isfloat_re`,
`isfloat_try`, `isreal_re`, `isreal_try`, `isintlike_re`, `isintlike_try`.
These are shallowly embedded below, together with the Python 3.6 semantics they
rely on: the `int()` and `float()` builtins on strings and numbers (including
PEP 515 underscore grouping and exact IEEE-754 binary64 rounding), truncating
float-to-int conversion, exact numeric comparison, and the regular expressions
used by the `_re` variants, modelled as deterministic recognizers of the same
languages.

An IEEE-754 binary64 value is modelled exactly: every finite double is an
integer multiple of 2 to the power -1074, so `PyFloat.finite m` denotes the
real number m / 2 ^ 1074, a unique representation.  Decimal-to-binary
conversion performs round-to-nearest, ties-to-even, with overflow to infinity
and gradual underflow, entirely in integer arithmetic so that every function
here evaluates inside the kernel.
-/

/-! ### Integer arithmetic helpers (kernel-computable) -/

/-- Bit length of a natural number below 2 ^ 64, by halving with structural fuel. -/
def bl64 : ℕ → ℕ → ℕ
  | 0, _ => 0
  | fuel+1, n => if n = 0 then 0 else bl64 fuel (n / 2) + 1

/-- Bit length worker: strips 64 bits per step so kernel reduction stays shallow. -/
def bitLenAux : ℕ → ℕ → ℕ
  | 0, _ => 0
  | fuel+1, n =>
    if n < 18446744073709551616 then bl64 64 n
    else bitLenAux fuel (n / 18446744073709551616) + 64

/-- Bit length: `bitLen n` is the least k with n < 2 ^ k (and 0 for n = 0). -/
def bitLen (n : ℕ) : ℕ := bitLenAux n n

/-- Exponentiation by squaring with structural fuel, so the kernel reduces it
with logarithmic depth. -/
def powAux : ℕ → ℤ → ℕ → ℤ
  | 0, _, _ => 1
  | fuel+1, b, e =>
    if e = 0 then 1 else
      let h := powAux fuel (b * b) (e / 2)
      if e % 2 = 1 then b * h else h

/-- Kernel-friendly power of two over ℤ. -/
def ipow2 (e : ℕ) : ℤ := powAux e 2 e

/-- Kernel-friendly power of ten over ℤ. -/
def ipow10 (e : ℕ) : ℤ := powAux e 10 e

/-- Round a / b (with b > 0) to the nearest integer, ties to even. -/
def rneFrac (a b : ℤ) : ℤ :=
  let f := a.fdiv b
  let r := a - f * b
  if 2 * r < b then f else if b < 2 * r then f + 1 else if f % 2 = 0 then f else f + 1

/-- Decide whether 2 ^ e is at most num / den (num, den > 0), exactly. -/
def pow2LE (num den : ℤ) (e : ℤ) : Bool :=
  if 0 ≤ e then den * ipow2 e.toNat ≤ num else den ≤ num * ipow2 (-e).toNat

/-- Floor of the base-2 logarithm of num / den (num, den > 0): a bit-length
candidate corrected by exact comparisons. -/
def floorLog2 (num den : ℤ) : ℤ :=
  let c : ℤ := (bitLen num.natAbs : ℤ) - (bitLen den.natAbs : ℤ)
  if pow2LE num den (c+2) then c+2
  else if pow2LE num den (c+1) then c+1
  else if pow2LE num den c then c
  else if pow2LE num den (c-1) then c-1
  else c-2

/-! ### IEEE-754 binary64 model -/

/-- A Python float: `finite m` denotes the exact value m / 2 ^ 1074 (every
finite double is such a multiple, uniquely), plus the special values. -/
inductive PyFloat where
  | finite : ℤ → PyFloat
  | inf : PyFloat
  | neginf : PyFloat
  | nan : PyFloat
deriving DecidableEq, Repr

/-- Round the positive rational num / den to binary64 (round to nearest, ties
to even; gradual underflow below 2 ^ (-1022); overflow to infinity at and above
2 ^ 1024, which is 2 ^ 2098 in the scaled-by-2^1074 representation). -/
def roundPosFrac (num den : ℤ) : PyFloat :=
  let e : ℤ := floorLog2 num den
  let p : ℤ := max (e - 52) (-1074)
  let mant : ℤ :=
    if 0 ≤ p then rneFrac num (den * ipow2 p.toNat)
    else rneFrac (num * ipow2 (-p).toNat) den
  let m : ℤ := mant * ipow2 (p + 1074).toNat
  if ipow2 2098 ≤ m then .inf else .finite m

/-- Round the rational num / den (den > 0) to binary64. -/
def roundFrac (num den : ℤ) : PyFloat :=
  if num = 0 then .finite 0
  else if 0 < num then roundPosFrac num den
  else
    match roundPosFrac (-num) den with
    | .inf => .neginf
    | .finite m => .finite (-m)
    | x => x

/-! ### Python value universe and errors -/

/-- Python exception kinds relevant to the embedded functions. -/
inductive PyErr where
  | valueError : PyErr
  | typeError : PyErr
  | overflowError : PyErr
deriving DecidableEq, Repr

/-- Python values passed to the notebook functions: integers, floats, strings
(as character lists), and two non-text non-numeric stand-ins (`none` for the
None object, `listv` for a list). -/
inductive PyVal where
  | int : ℤ → PyVal
  | float : PyFloat → PyVal
  | str : List Char → PyVal
  | none : PyVal
  | listv : PyVal
deriving DecidableEq, Repr

/-- Python `int(f)` on a float: truncation toward zero; ValueError on nan,
OverflowError on infinities. -/
def pyIntF : PyFloat → Except PyErr ℤ
  | .finite m => .ok (m.tdiv (ipow2 1074))
  | .nan => .error .valueError
  | _ => .error .overflowError

/-- Python exact comparison between a float and an integer (`a == b`). -/
def floatEqInt : PyFloat → ℤ → Bool
  | .finite m, b => m = b * ipow2 1074
  | _, _ => false

/-- Python `f.is_integer()`. -/
def floatIsInteger : PyFloat → Bool
  | .finite m => m % ipow2 1074 = 0
  | _ => false

/-! ### Character-level scanning (Python 3.6 literal grammar) -/

/-- Whitespace characters stripped by Python's int() and float(). -/
def isSpace (c : Char) : Bool :=
  c = ' ' || c = '\t' || c = '\n' || c = '\r' || c = '\x0b' || c = '\x0c'

/-- Strip leading and trailing whitespace. -/
def stripWS (cs : List Char) : List Char :=
  ((cs.dropWhile isSpace).reverse.dropWhile isSpace).reverse

/-- Case-fold exactly the letters occurring in the keywords inf, infinity and
nan; equivalent to full lowercasing for recognizing those keywords. -/
def lowerCh (c : Char) : Char :=
  if c = 'I' then 'i' else if c = 'N' then 'n' else if c = 'F' then 'f'
  else if c = 'A' then 'a' else if c = 'T' then 't' else if c = 'Y' then 'y'
  else c

/-- PEP 515 digit group: digits with single underscores strictly between
digits (`digit (("_")? digit)*`). -/
def validUnd : List Char → Bool
  | [] => false
  | [c] => c.isDigit
  | c :: c2 :: rest =>
    c.isDigit && (if c2 = '_' then validUnd rest else validUnd (c2 :: rest))

/-- Value of a list of decimal digit characters. -/
def natOfDigits (ds : List Char) : ℕ :=
  ds.foldl (fun a c => 10 * a + (c.toNat - 48)) 0

/-- Value of a PEP 515 digit group after discarding underscores. -/
def undIntVal (ds : List Char) : Option ℤ :=
  if validUnd ds then some ((natOfDigits (ds.filter (fun c => !(c = '_'))) : ℕ) : ℤ)
  else Option.none

/-- Python 3.6 `int(s)` on a string (base 10): optional surrounding whitespace,
optional sign, one underscore-grouped digit run. -/
def pyIntParse (cs : List Char) : Option ℤ :=
  match stripWS cs with
  | [] => Option.none
  | c :: rest =>
    if c = '+' then undIntVal rest
    else if c = '-' then (undIntVal rest).map (fun n => -n)
    else undIntVal (c :: rest)

/-- Mantissa and exponent of a decimal literal, turned into a rounded binary64.
sgn is 1 or -1; ipd and fpd are the integer- and fraction-part digits with
underscores removed; ex the signed decimal exponent. -/
def decimalValue (sgn : ℤ) (ipd fpd : List Char) (ex : ℤ) : PyFloat :=
  let n10 : ℤ := sgn * ((natOfDigits (ipd ++ fpd) : ℕ) : ℤ)
  let fexp : ℤ := ex - fpd.length
  if 0 ≤ fexp then roundFrac (n10 * ipow10 fexp.toNat) 1
  else roundFrac n10 (ipow10 (-fexp).toNat)

/-- Decimal part of Python 3.6 `float(s)`: digit-grouped integer part, optional
point and digit-grouped fraction (not both parts empty), optional exponent
with mandatory digits. -/
def parseDecimal (sgn : ℤ) (body : List Char) : Option PyFloat :=
  let msplit := body.span (fun c => !(c = 'e' || c = 'E'))
  let expOpt : Option ℤ :=
    match msplit.2 with
    | [] => some 0
    | _ :: etail =>
      match etail with
      | [] => Option.none
      | d :: dtail =>
        let esplit := if d = '+' then ((1:ℤ), dtail)
                      else if d = '-' then (-1, dtail) else (1, etail)
        match undIntVal esplit.2 with
        | some v => some (esplit.1 * v)
        | Option.none => Option.none
  match expOpt with
  | Option.none => Option.none
  | some ex =>
    let isplit := msplit.1.span (fun c => !(c = '.'))
    let ip := isplit.1
    let fp : List Char := match isplit.2 with | [] => [] | _ :: r2 => r2
    if (ip.isEmpty || validUnd ip) && (fp.isEmpty || validUnd fp)
        && !(ip.isEmpty && fp.isEmpty) then
      some (decimalValue sgn (ip.filter (fun c => !(c = '_')))
              (fp.filter (fun c => !(c = '_'))) ex)
    else Option.none

/-- Python 3.6 `float(s)` on a string: whitespace, optional sign, then a
case-insensitive special keyword or a decimal literal. -/
def pyFloatParse (cs : List Char) : Option PyFloat :=
  match stripWS cs with
  | [] => Option.none
  | c :: rest =>
    let sgn : ℤ := if c = '+' then 1 else if c = '-' then -1 else 1
    let body := if c = '+' || c = '-' then rest else c :: rest
    let low := body.map lowerCh
    if low = ['i','n','f'] || low = ['i','n','f','i','n','i','t','y'] then
      some (if sgn = 1 then .inf else .neginf)
    else if low = ['n','a','n'] then some .nan
    else parseDecimal sgn body

/-! ### The regular expressions of the notebook, as recognizers

The `_re` notebook functions match with `re.match` against patterns anchored
by a final `$` (which also matches just before one trailing newline).  Each
recognizer below accepts exactly the language of its pattern. -/

/-- End-of-input for a `$`-anchored match: nothing left, or one newline. -/
def atEnd (r : List Char) : Bool := r.isEmpty || r == ['\n']

/-- Consume one optional sign, as `[-+]?` does. -/
def stripSign : List Char → List Char
  | [] => []
  | c :: rest => if c = '+' || c = '-' then rest else c :: rest

/-- Language of `[-+]?\d+$` under `re.match` (used as int_match). -/
def intMatch (cs : List Char) : Bool :=
  let body := stripSign cs
  let p := body.span Char.isDigit
  !p.1.isEmpty && atEnd p.2

/-- Language of `[-+]\d+$` under `re.match`: the int_match of forceint_re,
whose pattern requires the sign. -/
def signedIntMatch (cs : List Char) : Bool :=
  match cs with
  | [] => false
  | c :: rest =>
    if c = '+' || c = '-' then
      let p := rest.span Char.isDigit
      !p.1.isEmpty && atEnd p.2
    else false

/-- Tail of the float pattern: the optional exponent `(?:[eE][-+]?\d+)?`
followed by `$`. -/
def expEndMatch : List Char → Bool
  | [] => true
  | c :: rest =>
    if c = '\n' then rest.isEmpty
    else if c = 'e' || c = 'E' then
      let body := stripSign rest
      let p := body.span Char.isDigit
      !p.1.isEmpty && atEnd p.2
    else false

/-- Language of `[-+]?\d*\.?\d+(?:[eE][-+]?\d+)?$` under `re.match` (used as
float_match and real_match): after the optional sign and a digit run, either
the input ends (run nonempty), or a dot must be followed by a nonempty digit
run; digits are required after the dot, so a trailing bare dot never matches. -/
def floatMatch (cs : List Char) : Bool :=
  let body := stripSign cs
  let isplit := body.span Char.isDigit
  match isplit.2 with
  | [] => !isplit.1.isEmpty
  | c :: r2 =>
    if c = '.' then
      let fsplit := r2.span Char.isDigit
      !fsplit.1.isEmpty && expEndMatch fsplit.2
    else !isplit.1.isEmpty && expEndMatch (c :: r2)

/-! ### The Python builtins on the value universe -/

/-- Python `int(x)` as used by the notebook functions. -/
def pyIntV : PyVal → Except PyErr ℤ
  | .int n => .ok n
  | .float f => pyIntF f
  | .str s =>
    match pyIntParse s with
    | some n => .ok n
    | Option.none => .error .valueError
  | _ => .error .typeError

/-- Python `float(x)` as used by the notebook functions.  A string parse may
yield an infinity (e.g. an overflowing exponent); an integer too large for
binary64 raises OverflowError instead. -/
def pyFloatV : PyVal → Except PyErr PyFloat
  | .int n =>
    match roundFrac n 1 with
    | .finite m => .ok (.finite m)
    | _ => .error .overflowError
  | .float f => .ok f
  | .str s =>
    match pyFloatParse s with
    | some f => .ok f
    | Option.none => .error .valueError
  | _ => .error .typeError

/-! ### The sixteen notebook functions

Each is a direct translation of the Python definition in the repository's
timing notebooks; `Except.error` models an uncaught exception and `.ok` a
returned value. -/

/-- Notebook int_re: regex gate then int(), TypeError handler calls int(x). -/
def int_re (x : PyVal) : Except PyErr PyVal :=
  match x with
  | .str s => if intMatch s then (pyIntV (.str s)).map PyVal.int else .ok (.str s)
  | _ => (pyIntV x).map PyVal.int

/-- Notebook int_try: int(x), returning the input on ValueError. -/
def int_try (x : PyVal) : Except PyErr PyVal :=
  match pyIntV x with
  | .ok n => .ok (.int n)
  | .error .valueError => .ok x
  | .error e => .error e

/-- Notebook float_re: regex gate then float(), TypeError handler calls float(x). -/
def float_re (x : PyVal) : Except PyErr PyVal :=
  match x with
  | .str s => if floatMatch s then (pyFloatV (.str s)).map PyVal.float else .ok (.str s)
  | _ => (pyFloatV x).map PyVal.float

/-- Notebook float_try: float(x), returning the input on ValueError. -/
def float_try (x : PyVal) : Except PyErr PyVal :=
  match pyFloatV x with
  | .ok f => .ok (.float f)
  | .error .valueError => .ok x
  | .error e => .error e

/-- Notebook real_re: int regex then real regex; TypeError handler returns
numeric input unchanged and re-raises otherwise. -/
def real_re (x : PyVal) : Except PyErr PyVal :=
  match x with
  | .str s =>
    if intMatch s then (pyIntV (.str s)).map PyVal.int
    else if floatMatch s then (pyFloatV (.str s)).map PyVal.float
    else .ok (.str s)
  | .int n => .ok (.int n)
  | .float f => .ok (.float f)
  | _ => .error .typeError

/-- Notebook real_try: a = float(x) (ValueError returns the input), b = int(a),
then `return b if a == b else b` - both branches return b. -/
def real_try (x : PyVal) : Except PyErr PyVal :=
  match pyFloatV x with
  | .error .valueError => .ok x
  | .error e => .error e
  | .ok a =>
    match pyIntF a with
    | .error e => .error e
    | .ok b => .ok (if floatEqInt a b then .int b else .int b)

/-- Notebook forceint_re: signed-int regex then float regex with int(float(x));
TypeError handler calls int(x). -/
def forceint_re (x : PyVal) : Except PyErr PyVal :=
  match x with
  | .str s =>
    if signedIntMatch s then (pyIntV (.str s)).map PyVal.int
    else if floatMatch s then
      match pyFloatV (.str s) with
      | .ok a => (pyIntF a).map PyVal.int
      | .error e => .error e
    else .ok (.str s)
  | _ => (pyIntV x).map PyVal.int

/-- Notebook forceint_try: int(x); on ValueError, int(float(x)); on a further
ValueError, the input. -/
def forceint_try (x : PyVal) : Except PyErr PyVal :=
  match pyIntV x with
  | .ok n => .ok (.int n)
  | .error .valueError =>
    (match pyFloatV x with
     | .error .valueError => .ok x
     | .error e => .error e
     | .ok a =>
       match pyIntF a with
       | .ok n => .ok (.int n)
       | .error .valueError => .ok x
       | .error e => .error e)
  | .error e => .error e

/-- Notebook isint_re: numeric input is judged by its type, text by the regex. -/
def isint_re (x : PyVal) : Except PyErr Bool :=
  match x with
  | .float _ => .ok false
  | .int _ => .ok true
  | .str s => .ok (intMatch s)
  | _ => .error .typeError

/-- Notebook isint_try: int(x) (ValueError gives False), then type(x) != float. -/
def isint_try (x : PyVal) : Except PyErr Bool :=
  match pyIntV x with
  | .error .valueError => .ok false
  | .error e => .error e
  | .ok _ =>
    .ok (match x with | .float _ => false | _ => true)

/-- Notebook isfloat_re: numeric input is judged by its type, text by the regex. -/
def isfloat_re (x : PyVal) : Except PyErr Bool :=
  match x with
  | .float _ => .ok true
  | .int _ => .ok false
  | .str s => .ok (floatMatch s)
  | _ => .error .typeError

/-- Notebook isfloat_try: float(x) (ValueError gives False), then type(x) != int. -/
def isfloat_try (x : PyVal) : Except PyErr Bool :=
  match pyFloatV x with
  | .error .valueError => .ok false
  | .error e => .error e
  | .ok _ =>
    .ok (match x with | .int _ => false | _ => true)

/-- Notebook isreal_re: numeric type or regex match. -/
def isreal_re (x : PyVal) : Except PyErr Bool :=
  match x with
  | .float _ => .ok true
  | .int _ => .ok true
  | .str s => .ok (floatMatch s)
  | _ => .error .typeError

/-- Notebook isreal_try: float(x) succeeds or ValueError gives False. -/
def isreal_try (x : PyVal) : Except PyErr Bool :=
  match pyFloatV x with
  | .error .valueError => .ok false
  | .error e => .error e
  | .ok _ => .ok true

/-- Notebook isintlike_re: int regex, else float regex with is_integer(), else
False; the TypeError handler computes int(x) == x. -/
def isintlike_re (x : PyVal) : Except PyErr Bool :=
  match x with
  | .str s =>
    if intMatch s then .ok true
    else if floatMatch s then
      match pyFloatV (.str s) with
      | .ok a => .ok (floatIsInteger a)
      | .error e => .error e
    else .ok false
  | .int _ => .ok true
  | .float f =>
    (match pyIntF f with
     | .ok b => .ok (floatEqInt f b)
     | .error e => .error e)
  | _ => .error .typeError

/-- Notebook isintlike_try: a = int(x), then a == float(x); on ValueError,
a = float(x) with a.is_integer(), and False if that also fails. -/
def isintlike_try (x : PyVal) : Except PyErr Bool :=
  match pyIntV x with
  | .ok a =>
    (match pyFloatV x with
     | .ok fx => .ok (floatEqInt fx a)
     | .error e => .error e)
  | .error .valueError =>
    (match pyFloatV x with
     | .error .valueError => .ok false
     | .error e => .error e
     | .ok a => .ok (floatIsInteger a))
  | .error e => .error e

/-! ### Spec-modelled dispatch policies -/

/-- Modelled from the spec: the on_fail policies of the Dispatch Façade
(Raise, ReturnInput, ReturnDefault, ReturnSentinel), which are not present in
the repository's source files. -/
inductive OnFail where
  | raiseErr : OnFail
  | returnInput : OnFail
  | returnDefault : PyVal → OnFail
  | returnSentinel : PyVal → OnFail

/-- Modelled from the spec: apply a configured on_fail policy to a malformed
input. -/
def applyOnFail (p : OnFail) (x : PyVal) : Except PyErr PyVal :=
  match p with
  | .raiseErr => .error .valueError
  | .returnInput => .ok x
  | .returnDefault d => .ok d
  | .returnSentinel s => .ok s

/-- Modelled from the spec: the Dispatch Façade routes a conversion through the
configured on_fail policy, which governs only MalformedLiteral (ValueError)
outcomes; an UnsupportedInputType failure is surfaced independently of it. -/
def withOnFail (conv : PyVal → Except PyErr PyVal) (p : OnFail) (x : PyVal) :
    Except PyErr PyVal :=
  match conv x with
  | .ok v => .ok v
  | .error .valueError => applyOnFail p x
  | .error e => .error e

/-- Sign of an optionally signed literal, used to quantify over the shapes a
valid integer literal can take. -/
inductive Sgn where
  | nos : Sgn
  | pos : Sgn
  | neg : Sgn

/-- Characters contributed by an optional sign. -/
def sgnChars : Sgn → List Char
  | .nos => []
  | .pos => ['+']
  | .neg => ['-']

/-- Integer value of a literal under an optional sign. -/
def applySgn : Sgn → ℤ → ℤ
  | .nos, n => n
  | .pos, n => n
  | .neg, n => -n

/-! ### Arithmetic lemmas -/

theorem powAux_spec (fuel : ℕ) : ∀ b : ℤ, ∀ e : ℕ, e < 2 ^ fuel → powAux fuel b e = b ^ e := by
  induction fuel with
  | zero =>
    intro b e he
    interval_cases e
    simp [powAux]
  | succ n ih =>
    intro b e he
    rw [powAux]
    by_cases h0 : e = 0
    · simp [h0]
    · simp only [h0, if_false]
      have hdiv : e / 2 < 2 ^ n := by
        have : (2:ℕ) ^ (n+1) = 2 * 2 ^ n := by ring
        omega
      rw [ih (b * b) (e / 2) hdiv]
      have hbb : (b * b) ^ (e / 2) = b ^ (2 * (e / 2)) := by
        rw [pow_mul]; ring_nf
      by_cases hp : e % 2 = 1
      · simp only [hp, if_true]
        rw [hbb, ← pow_succ']
        congr 1
        omega
      · simp only [hp, if_false]
        rw [hbb]
        congr 1
        omega

theorem ipow2_eq (e : ℕ) : ipow2 e = 2 ^ e :=
  powAux_spec e 2 e (Nat.lt_two_pow e)

theorem ipow10_eq (e : ℕ) : ipow10 e = 10 ^ e :=
  powAux_spec e 10 e (Nat.lt_two_pow e)

theorem ipow2_pos (e : ℕ) : 0 < ipow2 e := by
  rw [ipow2_eq]; positivity

theorem bl64_spec : ∀ fuel n : ℕ, n < 2 ^ fuel →
    (n = 0 ∧ bl64 fuel n = 0) ∨
      (∃ k, bl64 fuel n = k + 1 ∧ 2 ^ k ≤ n ∧ n < 2 ^ (k + 1)) := by
  intro fuel
  induction fuel with
  | zero =>
    intro n hn
    left
    simp only [pow_zero, Nat.lt_one_iff] at hn
    simp [hn, bl64]
  | succ f ih =>
    intro n hn
    by_cases h0 : n = 0
    · left; simp [h0, bl64]
    · right
      rw [bl64]
      simp only [h0, if_false]
      have hdiv : n / 2 < 2 ^ f := by
        have : (2:ℕ) ^ (f+1) = 2 * 2 ^ f := by ring
        omega
      rcases ih (n / 2) hdiv with ⟨hz, hb⟩ | ⟨k, hb, hlo, hhi⟩
      · refine ⟨0, by rw [hb], ?_, ?_⟩ <;> omega
      · refine ⟨k + 1, by rw [hb], ?_, ?_⟩
        · have : (2:ℕ) ^ (k+1) = 2 * 2 ^ k := by ring
          omega
        · have : (2:ℕ) ^ (k+2) = 2 * 2 ^ (k+1) := by ring
          omega

theorem bitLenAux_spec : ∀ fuel n : ℕ, n ≤ fuel →
    (n = 0 ∧ bitLenAux fuel n = 0) ∨
      (∃ k, bitLenAux fuel n = k + 1 ∧ 2 ^ k ≤ n ∧ n < 2 ^ (k + 1)) := by
  intro fuel
  induction fuel with
  | zero =>
    intro n hn
    left
    have h0 : n = 0 := by omega
    simp [h0, bitLenAux]
  | succ f ih =>
    intro n hn
    rw [bitLenAux]
    by_cases hsm : n < 18446744073709551616
    · simp only [hsm, if_true]
      have : n < 2 ^ 64 := by norm_num; omega
      exact bl64_spec 64 n this
    · simp only [hsm, if_false]
      right
      have hp : (18446744073709551616 : ℕ) = 2 ^ 64 := by norm_num
      have hm : n / 18446744073709551616 ≤ f := by
        have : n / 18446744073709551616 < n := Nat.div_lt_self (by omega) (by norm_num)
        omega
      rcases ih (n / 18446744073709551616) hm with ⟨hz, _⟩ | ⟨k, hb, hlo, hhi⟩
      · exfalso; omega
      · refine ⟨k + 64, ?_, ?_, ?_⟩
        · rw [hb]
        · calc 2 ^ (k + 64) = 2 ^ k * 2 ^ 64 := by ring
          _ ≤ (n / 18446744073709551616) * 2 ^ 64 := by
              exact Nat.mul_le_mul_right _ hlo
          _ ≤ n := by rw [← hp]; exact Nat.div_mul_le_self n _
        · have h1 : n < (n / 18446744073709551616 + 1) * 18446744073709551616 := by
            have hdm := Nat.div_add_mod n 18446744073709551616
            have hml := Nat.mod_lt n (show 0 < 18446744073709551616 by norm_num)
            omega
          calc n < (n / 18446744073709551616 + 1) * 18446744073709551616 := h1
          _ ≤ 2 ^ (k+1) * 2 ^ 64 := by
              rw [hp]; exact Nat.mul_le_mul_right _ (by omega)
          _ = 2 ^ (k + 64 + 1) := by ring

theorem bitLen_pos {n : ℕ} (h : n ≠ 0) :
    ∃ k, bitLen n = k + 1 ∧ 2 ^ k ≤ n ∧ n < 2 ^ (k + 1) := by
  rcases bitLenAux_spec n n le_rfl with ⟨hz, _⟩ | hk
  · exact absurd hz h
  · exact hk

theorem rneFrac_one (a : ℤ) : rneFrac a 1 = a := by
  simp [rneFrac, Int.fdiv_one]

theorem bitLen_one : bitLen 1 = 1 := by decide

theorem ipow2_mul_ipow2 (a b : ℕ) : ipow2 a * ipow2 b = ipow2 (a + b) := by
  rw [ipow2_eq, ipow2_eq, ipow2_eq, pow_add]

theorem pow2LE_nat_iff (n j : ℕ) : pow2LE (n:ℤ) 1 (j:ℤ) = true ↔ 2 ^ j ≤ n := by
  have h0 : (0:ℤ) ≤ (j:ℤ) := by positivity
  have ht : ((j:ℤ)).toNat = j := by omega
  simp only [pow2LE, if_pos h0, one_mul, ipow2_eq, ht, decide_eq_true_eq]
  exact ⟨fun h => by exact_mod_cast h, fun h => by exact_mod_cast h⟩

theorem floorLog2_int {n : ℕ} (h : n ≠ 0) :
    ∃ k : ℕ, floorLog2 (n:ℤ) 1 = (k:ℤ) ∧ 2 ^ k ≤ n ∧ n < 2 ^ (k + 1) := by
  obtain ⟨k, hb, hlo, hhi⟩ := bitLen_pos h
  refine ⟨k, ?_, hlo, hhi⟩
  have hna : ((n:ℤ)).natAbs = n := Int.natAbs_ofNat n
  have h1a : ((1:ℤ)).natAbs = 1 := rfl
  have hc : ((bitLen ((n:ℤ)).natAbs : ℕ) : ℤ) - ((bitLen ((1:ℤ)).natAbs : ℕ) : ℤ) = (k:ℤ) := by
    rw [hna, h1a, hb, bitLen_one]; push_cast; ring
  have e2 : (k:ℤ) + 2 = ((k+2 : ℕ) : ℤ) := by push_cast; ring
  have e1 : (k:ℤ) + 1 = ((k+1 : ℕ) : ℤ) := by push_cast; ring
  have hf2 : pow2LE (n:ℤ) 1 ((k+2:ℕ):ℤ) = false := by
    rw [← Bool.not_eq_true, pow2LE_nat_iff]
    intro hle
    have hmono : (2:ℕ)^(k+1) ≤ 2^(k+2) := Nat.pow_le_pow_right (by norm_num) (by omega)
    omega
  have hf1 : pow2LE (n:ℤ) 1 ((k+1:ℕ):ℤ) = false := by
    rw [← Bool.not_eq_true, pow2LE_nat_iff]
    omega
  have hf0 : pow2LE (n:ℤ) 1 ((k:ℕ):ℤ) = true := by
    rw [pow2LE_nat_iff]; exact hlo
  simp only [floorLog2, hc, e2, e1, hf2, hf1, hf0, Bool.false_eq_true, if_false, if_true]

theorem no_overflow_small {n : ℕ} (h2 : n < 2 ^ 53) :
    ¬ (ipow2 2098 ≤ (n:ℤ) * ipow2 1074) := by
  rw [ipow2_eq, ipow2_eq]
  intro hle
  have hn : (n:ℤ) < 2 ^ 53 := by exact_mod_cast h2
  have h3 : (n:ℤ) * 2 ^ 1074 < 2 ^ 53 * 2 ^ 1074 := by
    apply mul_lt_mul_of_pos_right hn; positivity
  have h4 : (2:ℤ) ^ 53 * 2 ^ 1074 = 2 ^ 1127 := by rw [← pow_add]
  have h5 : (2:ℤ) ^ 1127 ≤ 2 ^ 2098 := by
    apply pow_le_pow_right₀ <;> norm_num
  linarith

theorem roundPosFrac_exact {n : ℕ} (h1 : n ≠ 0) (h2 : n < 2 ^ 53) :
    roundPosFrac (n:ℤ) 1 = .finite ((n:ℤ) * ipow2 1074) := by
  obtain ⟨k, hfl, hlo, hhi⟩ := floorLog2_int h1
  have hk52 : k ≤ 52 := by
    by_contra hgt
    have : (2:ℕ) ^ 53 ≤ 2 ^ k := Nat.pow_le_pow_right (by norm_num) (by omega)
    omega
  have hp : max ((k:ℤ) - 52) (-1074) = (k:ℤ) - 52 := by
    apply max_eq_left; omega
  have hmant : (if 0 ≤ (k:ℤ) - 52 then rneFrac (n:ℤ) (1 * ipow2 ((k:ℤ) - 52).toNat)
      else rneFrac ((n:ℤ) * ipow2 (-((k:ℤ) - 52)).toNat) 1) = (n:ℤ) * ipow2 (52 - k) := by
    by_cases hk : k = 52
    · subst hk
      rw [if_pos (by omega)]
      have ht0 : (((52:ℕ):ℤ) - 52).toNat = 0 := by omega
      rw [ht0]
      have hi1 : (1:ℤ) * ipow2 0 = 1 := by rw [ipow2_eq]; ring
      rw [hi1, rneFrac_one]
      simp [ipow2_eq]
    · rw [if_neg (by omega)]
      have ht0 : (-((k:ℤ) - 52)).toNat = 52 - k := by omega
      rw [ht0, rneFrac_one]
  have ht1 : ((k:ℤ) - 52 + 1074).toNat = k + 1022 := by omega
  simp only [roundPosFrac, hfl, hp, hmant, ht1, mul_assoc, ipow2_mul_ipow2]
  have hs : 52 - k + (k + 1022) = 1074 := by omega
  rw [hs, if_neg (no_overflow_small h2)]

theorem roundFrac_intCast {z : ℤ} (h : z.natAbs < 2 ^ 53) :
    roundFrac z 1 = .finite (z * ipow2 1074) := by
  rcases lt_trichotomy z 0 with hneg | hz | hpos
  · rw [roundFrac, if_neg (by omega), if_neg (by omega)]
    have hn : (-z) = ((z.natAbs : ℕ) : ℤ) := by omega
    rw [hn, roundPosFrac_exact (by omega) h]
    have hz2 : ((z.natAbs : ℕ) : ℤ) = -z := by omega
    rw [hz2]
    show PyFloat.finite (-(-z * ipow2 1074)) = PyFloat.finite (z * ipow2 1074)
    ring_nf
  · subst hz
    rw [roundFrac, if_pos rfl]
    norm_num
  · rw [roundFrac, if_neg (by omega), if_pos hpos]
    have hn : z = ((z.natAbs : ℕ) : ℤ) := by omega
    rw [hn] at h ⊢
    exact roundPosFrac_exact (by omega) h

theorem pyIntF_exact (z : ℤ) : pyIntF (.finite (z * ipow2 1074)) = .ok z := by
  have hne : ipow2 1074 ≠ 0 := by have := ipow2_pos 1074; omega
  simp only [pyIntF, Int.mul_tdiv_cancel z hne]

/-! ### Character-class and scanning lemmas -/

theorem ne_of_isDigit {c : Char} (d : Char) (h : c.isDigit = true)
    (hd : d.isDigit = false) : ¬ c = d := by
  intro he
  subst he
  rw [h] at hd
  simp at hd

theorem isSpace_of_isDigit {c : Char} (h : c.isDigit = true) : isSpace c = false := by
  simp only [isSpace, Bool.or_eq_false_iff, decide_eq_false_iff_not]
  refine ⟨⟨⟨⟨⟨?_, ?_⟩, ?_⟩, ?_⟩, ?_⟩, ?_⟩ <;> exact ne_of_isDigit _ h (by decide)

theorem lowerCh_of_isDigit {c : Char} (h : c.isDigit = true) : lowerCh c = c := by
  rw [lowerCh, if_neg (ne_of_isDigit _ h (by decide)), if_neg (ne_of_isDigit _ h (by decide)),
    if_neg (ne_of_isDigit _ h (by decide)), if_neg (ne_of_isDigit _ h (by decide)),
    if_neg (ne_of_isDigit _ h (by decide)), if_neg (ne_of_isDigit _ h (by decide))]

theorem dropWhile_head_eq_self {p : Char → Bool} {l : List Char}
    (h : ∀ c, l.head? = some c → p c = false) : l.dropWhile p = l := by
  cases l with
  | nil => rfl
  | cons a t =>
    rw [List.dropWhile_cons, h a rfl]
    simp

theorem stripWS_eq_self {l : List Char}
    (h1 : ∀ c, l.head? = some c → isSpace c = false)
    (h2 : ∀ c, l.getLast? = some c → isSpace c = false) : stripWS l = l := by
  rw [stripWS, dropWhile_head_eq_self h1,
    dropWhile_head_eq_self (fun c hc => h2 c (by rwa [List.head?_reverse] at hc)),
    List.reverse_reverse]

theorem takeWhile_append_of {p : Char → Bool} :
    ∀ {ds rest : List Char}, (∀ c ∈ ds, p c = true) →
      (∀ c, rest.head? = some c → p c = false) → (ds ++ rest).takeWhile p = ds := by
  intro ds
  induction ds with
  | nil =>
    intro rest _ hr
    cases rest with
    | nil => rfl
    | cons a t => simp [List.takeWhile_cons, hr a rfl]
  | cons a t ih =>
    intro rest hd hr
    have ha : p a = true := hd a (by simp)
    simp only [List.cons_append, List.takeWhile_cons, ha, if_true]
    rw [ih (fun c hc => hd c (by simp [hc])) hr]

theorem dropWhile_append_of {p : Char → Bool} :
    ∀ {ds rest : List Char}, (∀ c ∈ ds, p c = true) →
      (∀ c, rest.head? = some c → p c = false) → (ds ++ rest).dropWhile p = rest := by
  intro ds
  induction ds with
  | nil =>
    intro rest _ hr
    cases rest with
    | nil => rfl
    | cons a t => simp [List.dropWhile_cons, hr a rfl]
  | cons a t ih =>
    intro rest hd hr
    have ha : p a = true := hd a (by simp)
    simp only [List.cons_append, List.dropWhile_cons, ha, if_true]
    exact ih (fun c hc => hd c (by simp [hc])) hr

theorem span_append_of {p : Char → Bool} {ds rest : List Char}
    (hd : ∀ c ∈ ds, p c = true) (hr : ∀ c, rest.head? = some c → p c = false) :
    (ds ++ rest).span p = (ds, rest) := by
  rw [List.span_eq_take_drop, takeWhile_append_of hd hr, dropWhile_append_of hd hr]

theorem span_all_of {p : Char → Bool} {ds : List Char} (hd : ∀ c ∈ ds, p c = true) :
    ds.span p = (ds, []) := by
  have h := @span_append_of _ ds [] hd (fun c hc => by simp at hc)
  simpa using h

theorem getLast?_sat {p : Char → Bool} : ∀ {l : List Char}, (∀ c ∈ l, p c = true) →
    ∀ {c : Char}, l.getLast? = some c → p c = true := by
  intro l
  induction l with
  | nil => intro _ c hc; simp at hc
  | cons a t ih =>
    intro h c hc
    cases t with
    | nil =>
      simp only [List.getLast?_singleton, Option.some_inj] at hc
      subst hc
      exact h a (by simp)
    | cons b r =>
      rw [List.getLast?_cons_cons] at hc
      exact ih (fun x hx => h x (by simp [hx])) hc

theorem validUnd_digits : ∀ {ds : List Char}, ds ≠ [] →
    (∀ c ∈ ds, c.isDigit = true) → validUnd ds = true := by
  intro ds
  induction ds with
  | nil => intro h _; exact absurd rfl h
  | cons a t ih =>
    intro _ hd
    cases t with
    | nil => simp [validUnd, hd a (by simp)]
    | cons b r =>
      have hb : b.isDigit = true := hd b (by simp)
      have hnu : ¬ b = '_' := ne_of_isDigit _ hb (by decide)
      simp only [validUnd, hd a (by simp), if_neg hnu, Bool.true_and]
      exact ih (by simp) (fun c hc => hd c (by simp [hc]))

theorem filter_underscore_digits {ds : List Char} (h : ∀ c ∈ ds, c.isDigit = true) :
    ds.filter (fun c => !(c = '_')) = ds := by
  rw [List.filter_eq_self]
  intro a ha
  have hne := ne_of_isDigit _ (h a ha) (show ('_').isDigit = false by decide)
  simp [hne]

/-! ### Parsing of integer literals -/

theorem stripWS_literal (sg : Sgn) {ds : List Char} (h1 : ds ≠ [])
    (h2 : ∀ c ∈ ds, c.isDigit = true) :
    stripWS (sgnChars sg ++ ds) = sgnChars sg ++ ds := by
  apply stripWS_eq_self
  · intro c hc
    cases sg with
    | nos =>
      simp only [sgnChars, List.nil_append] at hc
      cases ds with
      | nil => simp at hc
      | cons d t =>
        simp only [List.head?_cons, Option.some_inj] at hc
        subst hc
        exact isSpace_of_isDigit (h2 d (by simp))
    | pos =>
      simp only [sgnChars, List.singleton_append, List.head?_cons, Option.some_inj] at hc
      subst hc
      decide
    | neg =>
      simp only [sgnChars, List.singleton_append, List.head?_cons, Option.some_inj] at hc
      subst hc
      decide
  · intro c hc
    rw [List.getLast?_append_of_ne_nil _ h1] at hc
    exact isSpace_of_isDigit (getLast?_sat h2 hc)

theorem map_lowerCh_digits {ds : List Char} (h2 : ∀ c ∈ ds, c.isDigit = true) :
    ds.map lowerCh = ds := by
  induction ds with
  | nil => rfl
  | cons a t ih =>
    simp only [List.map_cons, lowerCh_of_isDigit (h2 a (by simp)),
      ih (fun c hc => h2 c (by simp [hc]))]

theorem undIntVal_digits {ds : List Char} (h1 : ds ≠ [])
    (h2 : ∀ c ∈ ds, c.isDigit = true) :
    undIntVal ds = some ((natOfDigits ds : ℕ) : ℤ) := by
  rw [undIntVal, if_pos (validUnd_digits h1 h2), filter_underscore_digits h2]

theorem pyIntParse_strip (sg : Sgn) {cs ds : List Char} (h1 : ds ≠ [])
    (h2 : ∀ c ∈ ds, c.isDigit = true) (hstrip : stripWS cs = sgnChars sg ++ ds) :
    pyIntParse cs = some (applySgn sg ((natOfDigits ds : ℕ) : ℤ)) := by
  have hund := undIntVal_digits h1 h2
  cases sg with
  | nos =>
    simp only [sgnChars, List.nil_append] at hstrip ⊢
    cases ds with
    | nil => exact absurd rfl h1
    | cons d t =>
      have hd : d.isDigit = true := h2 d (by simp)
      simp only [pyIntParse, hstrip]
      rw [if_neg (ne_of_isDigit '+' hd (by decide)),
        if_neg (ne_of_isDigit '-' hd (by decide)), hund]
      simp [applySgn]
  | pos =>
    simp only [sgnChars, List.singleton_append] at hstrip ⊢
    simp only [pyIntParse, hstrip, if_pos rfl]
    rw [hund]
    simp [applySgn]
  | neg =>
    simp only [sgnChars, List.singleton_append] at hstrip ⊢
    simp only [pyIntParse, hstrip]
    simp [hund, applySgn]

theorem intMatch_literal (sg : Sgn) {ds : List Char} (h1 : ds ≠ [])
    (h2 : ∀ c ∈ ds, c.isDigit = true) : intMatch (sgnChars sg ++ ds) = true := by
  have hsp : ds.span Char.isDigit = (ds, []) := span_all_of h2
  cases sg with
  | nos =>
    simp only [sgnChars, List.nil_append, intMatch]
    cases ds with
    | nil => exact absurd rfl h1
    | cons d t =>
      have hd := h2 d (by simp)
      have hp := ne_of_isDigit '+' hd (by decide)
      have hm := ne_of_isDigit '-' hd (by decide)
      simp only [stripSign, hp, hm, atEnd]
      simp [hsp]
      exact ⟨hd, Or.inl ⟨hd, fun a ha => h2 a (by simp [ha])⟩⟩
  | pos =>
    simp only [sgnChars, List.singleton_append, intMatch, stripSign]
    rw [if_pos (by simp)]
    rw [hsp]
    simp [atEnd, h1]
  | neg =>
    simp only [sgnChars, List.singleton_append, intMatch, stripSign]
    rw [if_pos (by simp)]
    rw [hsp]
    simp [atEnd, h1]

/-! ### Parsing of integer literals by float() -/

theorem digits_ne_keywords {ds : List Char} (h2 : ∀ c ∈ ds, c.isDigit = true) :
    ds ≠ ['i','n','f'] ∧ ds ≠ ['i','n','f','i','n','i','t','y'] ∧ ds ≠ ['n','a','n'] := by
  refine ⟨?_, ?_, ?_⟩
  · intro he
    have hi := h2 'i' (by rw [he]; simp)
    exact absurd hi (by decide)
  · intro he
    have hi := h2 'i' (by rw [he]; simp)
    exact absurd hi (by decide)
  · intro he
    have hn := h2 'n' (by rw [he]; simp)
    exact absurd hn (by decide)

theorem parseDecimal_digits (sgn : ℤ) {ds : List Char} (h1 : ds ≠ [])
    (h2 : ∀ c ∈ ds, c.isDigit = true) :
    parseDecimal sgn ds = some (roundFrac (sgn * ((natOfDigits ds : ℕ) : ℤ)) 1) := by
  have hspE : ds.span (fun c => !(c = 'e' || c = 'E')) = (ds, []) := by
    apply span_all_of
    intro c hc
    have h := h2 c hc
    simp [ne_of_isDigit 'e' h (by decide), ne_of_isDigit 'E' h (by decide)]
  have hspD : ds.span (fun c => !(c = '.')) = (ds, []) := by
    apply span_all_of
    intro c hc
    simp [ne_of_isDigit '.' (h2 c hc) (by decide)]
  have hie : ds.isEmpty = false := by
    cases ds with
    | nil => exact absurd rfl h1
    | cons a t => rfl
  simp only [parseDecimal, hspE, hspD]
  simp only [List.isEmpty_nil, hie, validUnd_digits h1 h2, Bool.false_or, Bool.true_or,
    Bool.true_and, Bool.and_true, Bool.and_false, Bool.not_false, if_true]
  rw [filter_underscore_digits h2]
  simp [decimalValue, ipow10_eq]

theorem pyFloatParse_intLiteral (sg : Sgn) {ds : List Char} (h1 : ds ≠ [])
    (h2 : ∀ c ∈ ds, c.isDigit = true) :
    pyFloatParse (sgnChars sg ++ ds) =
      some (roundFrac (applySgn sg ((natOfDigits ds : ℕ) : ℤ)) 1) := by
  have hstrip := stripWS_literal sg h1 h2
  have hmap := map_lowerCh_digits h2
  obtain ⟨hk1, hk2, hk3⟩ := digits_ne_keywords h2
  cases sg with
  | nos =>
    cases ds with
    | nil => exact absurd rfl h1
    | cons d t =>
      have hd := h2 d (by simp)
      have hp := ne_of_isDigit '+' hd (by decide)
      have hm := ne_of_isDigit '-' hd (by decide)
      simp only [sgnChars, List.nil_append] at hstrip ⊢
      simp only [pyFloatParse, hstrip]
      simp [hp, hm, hmap, hk1, hk2, hk3, parseDecimal_digits 1 h1 h2, applySgn]
  | pos =>
    simp only [sgnChars, List.singleton_append] at hstrip ⊢
    simp only [pyFloatParse, hstrip]
    simp [hmap, hk1, hk2, hk3, parseDecimal_digits 1 h1 h2, applySgn]
  | neg =>
    simp only [sgnChars, List.singleton_append] at hstrip ⊢
    simp only [pyFloatParse, hstrip]
    simp [hmap, hk1, hk2, hk3, parseDecimal_digits (-1) h1 h2, applySgn]

/-! ### Parsing of a digit run followed by a bare decimal point -/

theorem parseDecimal_digitsDot (sgn : ℤ) {ds : List Char} (h1 : ds ≠ [])
    (h2 : ∀ c ∈ ds, c.isDigit = true) :
    parseDecimal sgn (ds ++ ['.']) = some (roundFrac (sgn * ((natOfDigits ds : ℕ) : ℤ)) 1) := by
  have hspE : (ds ++ ['.']).span (fun c => !(c = 'e' || c = 'E')) = (ds ++ ['.'], []) := by
    apply span_all_of
    intro c hc
    rcases List.mem_append.mp hc with hc | hc
    · have h := h2 c hc
      simp [ne_of_isDigit 'e' h (by decide), ne_of_isDigit 'E' h (by decide)]
    · simp only [List.mem_singleton] at hc
      subst hc
      decide
  have hspD : (ds ++ ['.']).span (fun c => !(c = '.')) = (ds, ['.']) := by
    apply span_append_of
    · intro c hc
      simp [ne_of_isDigit '.' (h2 c hc) (by decide)]
    · intro c hc
      simp only [List.head?_cons, Option.some_inj] at hc
      subst hc
      simp
  have hie : ds.isEmpty = false := by
    cases ds with
    | nil => exact absurd rfl h1
    | cons a t => rfl
  simp only [parseDecimal, hspE, hspD]
  simp only [List.isEmpty_nil, hie, validUnd_digits h1 h2, Bool.false_or, Bool.true_or,
    Bool.true_and, Bool.and_true, Bool.and_false, Bool.not_false, if_true]
  rw [filter_underscore_digits h2]
  simp [decimalValue, ipow10_eq]

theorem pyFloatParse_digitsDot {ds : List Char} (h1 : ds ≠ [])
    (h2 : ∀ c ∈ ds, c.isDigit = true) :
    pyFloatParse (ds ++ ['.']) = some (roundFrac ((natOfDigits ds : ℕ) : ℤ) 1) := by
  have hstrip : stripWS (ds ++ ['.']) = ds ++ ['.'] := by
    apply stripWS_eq_self
    · intro c hc
      cases ds with
      | nil => exact absurd rfl h1
      | cons d t =>
        simp only [List.cons_append, List.head?_cons, Option.some_inj] at hc
        subst hc
        exact isSpace_of_isDigit (h2 d (by simp))
    · intro c hc
      rw [List.getLast?_concat] at hc
      simp only [Option.some_inj] at hc
      subst hc
      decide
  have hmap : (ds ++ ['.']).map lowerCh = ds ++ ['.'] := by
    rw [List.map_append, map_lowerCh_digits h2]
    simp [lowerCh]
  have hlast : (ds ++ ['.']).getLast? = some '.' := List.getLast?_concat ds
  have hk1 : ds ++ ['.'] ≠ ['i','n','f'] := by
    intro he
    have hl := congrArg List.getLast? he
    rw [hlast] at hl
    exact absurd hl (by decide)
  have hk2 : ds ++ ['.'] ≠ ['i','n','f','i','n','i','t','y'] := by
    intro he
    have hl := congrArg List.getLast? he
    rw [hlast] at hl
    exact absurd hl (by decide)
  have hk3 : ds ++ ['.'] ≠ ['n','a','n'] := by
    intro he
    have hl := congrArg List.getLast? he
    rw [hlast] at hl
    exact absurd hl (by decide)
  cases ds with
  | nil => exact absurd rfl h1
  | cons d t =>
    have hd := h2 d (by simp)
    have hp := ne_of_isDigit '+' hd (by decide)
    have hm := ne_of_isDigit '-' hd (by decide)
    simp only [List.cons_append] at hstrip hmap hk1 hk2 hk3 ⊢
    simp only [pyFloatParse, hstrip]
    have hpd := parseDecimal_digitsDot 1 h1 h2
    simp only [List.cons_append] at hpd
    simp [hp, hm, hmap, hk1, hk2, hk3, hpd]

theorem floatMatch_digitsDot {ds : List Char} (h1 : ds ≠ [])
    (h2 : ∀ c ∈ ds, c.isDigit = true) : floatMatch (ds ++ ['.']) = false := by
  have hspD : (ds ++ ['.']).span Char.isDigit = (ds, ['.']) := by
    apply span_append_of
    · exact h2
    · intro c hc
      simp only [List.head?_cons, Option.some_inj] at hc
      subst hc
      decide
  cases ds with
  | nil => exact absurd rfl h1
  | cons d t =>
    have hd := h2 d (by simp)
    have hp := ne_of_isDigit '+' hd (by decide)
    have hm := ne_of_isDigit '-' hd (by decide)
    simp only [floatMatch, List.cons_append, stripSign]
    have hcond : (decide (d = '+') || decide (d = '-')) = false := by simp [hp, hm]
    rw [hcond]
    simp only [Bool.false_eq_true, if_false]
    have hspD2 := hspD
    simp only [List.cons_append] at hspD2
    rw [hspD2]
    simp only [List.span, if_true]
    decide

/-! ### Regex acceptance implies int() acceptance -/

theorem stripWS_literal_newline (sg : Sgn) {ds : List Char} (h1 : ds ≠ [])
    (h2 : ∀ c ∈ ds, c.isDigit = true) :
    stripWS ((sgnChars sg ++ ds) ++ ['\n']) = sgnChars sg ++ ds := by
  have hhead : ∀ c, ((sgnChars sg ++ ds) ++ ['\n']).head? = some c → isSpace c = false := by
    intro c hc
    cases sg with
    | nos =>
      simp only [sgnChars, List.nil_append] at hc
      cases ds with
      | nil => exact absurd rfl h1
      | cons d t =>
        simp only [List.cons_append, List.head?_cons, Option.some_inj] at hc
        subst hc
        exact isSpace_of_isDigit (h2 d (by simp))
    | pos =>
      simp only [sgnChars, List.singleton_append, List.cons_append, List.head?_cons,
        Option.some_inj] at hc
      subst hc
      decide
    | neg =>
      simp only [sgnChars, List.singleton_append, List.cons_append, List.head?_cons,
        Option.some_inj] at hc
      subst hc
      decide
  have hback : ∀ c, (sgnChars sg ++ ds).reverse.head? = some c → isSpace c = false := by
    intro c hc
    rw [List.head?_reverse, List.getLast?_append_of_ne_nil _ h1] at hc
    exact isSpace_of_isDigit (getLast?_sat h2 hc)
  rw [stripWS, dropWhile_head_eq_self hhead, List.reverse_append]
  simp only [List.reverse_singleton, List.singleton_append, List.dropWhile_cons]
  rw [show isSpace '\n' = true from by decide]
  simp only [if_true]
  rw [dropWhile_head_eq_self hback, List.reverse_reverse]

theorem intMatch_imp_parse {s : List Char} (h : intMatch s = true) :
    ∃ n : ℤ, pyIntParse s = some n := by
  rw [intMatch, List.span_eq_take_drop] at h
  simp only [Bool.and_eq_true, Bool.not_eq_true', atEnd, Bool.or_eq_true,
    List.isEmpty_iff, beq_iff_eq] at h
  obtain ⟨hne, hrest⟩ := h
  have hne2 : (stripSign s).takeWhile Char.isDigit ≠ [] := by
    intro he
    rw [he] at hne
    simp at hne
  have hds : ∀ c ∈ (stripSign s).takeWhile Char.isDigit, c.isDigit = true :=
    fun c hc => List.mem_takeWhile_imp hc
  have hsplit : (stripSign s).takeWhile Char.isDigit ++ (stripSign s).dropWhile Char.isDigit = stripSign s :=
    List.takeWhile_append_dropWhile Char.isDigit (stripSign s)
  cases s with
  | nil =>
    simp [stripSign, List.takeWhile] at hne2
  | cons c t =>
    by_cases hcp : c = '+'
    · subst hcp
      have hb : stripSign ('+' :: t) = t := by simp [stripSign]
      rw [hb] at hne2 hds hsplit hrest
      rcases hrest with hrest | hrest
      · have ht : t = t.takeWhile Char.isDigit := by
          conv_lhs => rw [← hsplit, hrest, List.append_nil]
        refine ⟨_, pyIntParse_strip .pos hne2 hds ?_⟩
        conv_lhs => rw [ht]
        exact stripWS_literal .pos hne2 hds
      · have ht : t = t.takeWhile Char.isDigit ++ ['\n'] := by
          conv_lhs => rw [← hsplit, hrest]
        refine ⟨_, pyIntParse_strip .pos hne2 hds ?_⟩
        conv_lhs => rw [ht]
        exact stripWS_literal_newline .pos hne2 hds
    · by_cases hcm : c = '-'
      · subst hcm
        have hb : stripSign ('-' :: t) = t := by simp [stripSign]
        rw [hb] at hne2 hds hsplit hrest
        rcases hrest with hrest | hrest
        · have ht : t = t.takeWhile Char.isDigit := by
            conv_lhs => rw [← hsplit, hrest, List.append_nil]
          refine ⟨_, pyIntParse_strip .neg hne2 hds ?_⟩
          conv_lhs => rw [ht]
          exact stripWS_literal .neg hne2 hds
        · have ht : t = t.takeWhile Char.isDigit ++ ['\n'] := by
            conv_lhs => rw [← hsplit, hrest]
          refine ⟨_, pyIntParse_strip .neg hne2 hds ?_⟩
          conv_lhs => rw [ht]
          exact stripWS_literal_newline .neg hne2 hds
      · have hb : stripSign (c :: t) = c :: t := by
          simp [stripSign, hcp, hcm]
        rw [hb] at hne2 hds hsplit hrest
        rcases hrest with hrest | hrest
        · have ht : c :: t = (c :: t).takeWhile Char.isDigit := by
            conv_lhs => rw [← hsplit, hrest, List.append_nil]
          refine ⟨_, pyIntParse_strip .nos hne2 hds ?_⟩
          conv_lhs => rw [ht]
          exact stripWS_literal .nos hne2 hds
        · have ht : c :: t = (c :: t).takeWhile Char.isDigit ++ ['\n'] := by
            conv_lhs => rw [← hsplit, hrest]
          refine ⟨_, pyIntParse_strip .nos hne2 hds ?_⟩
          conv_lhs => rw [ht]
          exact stripWS_literal_newline .nos hne2 hds

/-! ### Claim theorems -/

/-- Claim C1 (amended): for every valid integer literal consisting of an
optional sign and digits, without underscore separators, whose value is below
2 ^ 53 (hence exactly representable in binary64), to_int via both int_re and
int_try and to_real via real_try succeed and return the same mathematically
exact integer value.  The original claim is refuted by the counterexample:
int_re rejects underscore-grouped literals, and real_try routes integer
literals through float(), so a 105-bit literal comes back rounded. -/
theorem claim_C1_amended (sg : Sgn) (ds : List Char) (h1 : ds ≠ [])
    (h2 : ∀ c ∈ ds, c.isDigit = true) (h3 : natOfDigits ds < 2 ^ 53) :
    int_re (.str (sgnChars sg ++ ds)) =
        .ok (.int (applySgn sg ((natOfDigits ds : ℕ) : ℤ))) ∧
    int_try (.str (sgnChars sg ++ ds)) =
        .ok (.int (applySgn sg ((natOfDigits ds : ℕ) : ℤ))) ∧
    real_try (.str (sgnChars sg ++ ds)) =
        .ok (.int (applySgn sg ((natOfDigits ds : ℕ) : ℤ))) := by
  have hip := pyIntParse_strip sg h1 h2 (stripWS_literal sg h1 h2)
  have him := intMatch_literal sg h1 h2
  have hfp := pyFloatParse_intLiteral sg h1 h2
  have habs : (applySgn sg ((natOfDigits ds : ℕ) : ℤ)).natAbs < 2 ^ 53 := by
    cases sg <;> simpa [applySgn] using h3
  have hround := roundFrac_intCast habs
  refine ⟨?_, ?_, ?_⟩
  · simp [int_re, him, pyIntV, hip, Except.map]
  · simp [int_try, pyIntV, hip]
  · simp [real_try, pyFloatV, hfp, hround, pyIntF_exact]

/-- Witness for claim C1 at the concrete literal "-41053". -/
theorem claim_C1_amended_witness :
    int_re (.str ['-','4','1','0','5','3']) = .ok (.int (-41053)) ∧
    int_try (.str ['-','4','1','0','5','3']) = .ok (.int (-41053)) ∧
    real_try (.str ['-','4','1','0','5','3']) = .ok (.int (-41053)) := by
  have hv : applySgn .neg ((natOfDigits ['4','1','0','5','3'] : ℕ) : ℤ) = -41053 := by decide
  have h := claim_C1_amended .neg ['4','1','0','5','3'] (by decide) (by decide) (by decide)
  rw [hv] at h
  exact h

/-- Counterexample to claim C1 as stated: on the large integer literal from
the repository's own test data, int_re returns the exact value but real_try
returns the value rounded through binary64, so the two differ; and int_re
rejects the underscore-grouped literal "1_2" outright. -/
theorem claim_C1_counterexample :
    int_re (.str "35892482945872302493947939485729".toList) =
        .ok (.int 35892482945872302493947939485729) ∧
    real_try (.str "35892482945872302493947939485729".toList) =
        .ok (.int 35892482945872301180401634770944) ∧
    (35892482945872301180401634770944 : ℤ) ≠ 35892482945872302493947939485729 ∧
    int_re (.str "1_2".toList) = .ok (.str "1_2".toList) := by
  refine ⟨by decide, by decide, by decide, by decide⟩

/-- Claim C2 (code bug): real_try materializes the float and truncates, but
`return b if a == b else b` returns the truncated integer b in BOTH branches,
so real_try("1.5") yields Integer 1, not Float 1.5 as the claim (and the
fast_real behavior the docstring says it simulates) requires;
real_try("1.0") = 1 agrees with the claim. -/
theorem claim_C2_bug :
    real_try (.str ['1','.','5']) = .ok (.int 1) ∧
    real_try (.str ['1','.','5']) ≠ .ok (.float (roundFrac 15 10)) ∧
    real_try (.str ['1','.','0']) = .ok (.int 1) := by
  refine ⟨by decide, by decide, by decide⟩

/-- Claim C3 (code bug): forceint_re compiles its int pattern as `[-+]\d+$`,
missing the `?` every sibling function has, so an UNSIGNED integer literal
falls through to the float branch and a 105-bit literal is rounded;
forceint_try returns the exact value, and both truncate "3.9"/"-3.9" toward
zero as the claim states. -/
theorem claim_C3_bug :
    forceint_re (.str "35892482945872302493947939485729".toList) =
        .ok (.int 35892482945872301180401634770944) ∧
    forceint_try (.str "35892482945872302493947939485729".toList) =
        .ok (.int 35892482945872302493947939485729) ∧
    (35892482945872301180401634770944 : ℤ) ≠ 35892482945872302493947939485729 ∧
    signedIntMatch "42".toList = false ∧
    intMatch "42".toList = true ∧
    forceint_try (.str ['3','.','9']) = .ok (.int 3) ∧
    forceint_try (.str ['-','3','.','9']) = .ok (.int (-3)) ∧
    forceint_re (.str ['3','.','9']) = .ok (.int 3) := by
  refine ⟨by decide, by decide, by decide, by decide, by decide, by decide, by decide,
    by decide⟩

/-- Claim C4 (amended): on string inputs the try-based predicates agree with
their conversions - is_int with to_int, is_float with to_float, and, whenever
the parsed float is finite, is_real with to_real; the regex predicate isint_re
reports exactly its regex, whose acceptance implies int() acceptance.  The
original claim is refuted on numeric inputs (is_int(3.0) is False though
to_int(3.0) succeeds; is_float(42) is False though to_float(42) succeeds), on
large integer-literal strings (is_intlike is False although the value is an
integer), and on "nan" (is_real is True but real_try raises); see the
counterexample. -/
theorem claim_C4_amended :
    (∀ s : List Char,
      (isint_try (.str s) = .ok true ↔ ∃ n, int_try (.str s) = .ok (.int n)) ∧
      (isfloat_try (.str s) = .ok true ↔ ∃ f, float_try (.str s) = .ok (.float f)) ∧
      (isint_re (.str s) = .ok (intMatch s)) ∧
      (intMatch s = true → ∃ n, int_re (.str s) = .ok (.int n))) ∧
    (∀ s : List Char, ∀ f : ℤ, pyFloatParse s = some (.finite f) →
      isreal_try (.str s) = .ok true ∧
      real_try (.str s) = .ok (.int (f.tdiv (ipow2 1074)))) := by
  constructor
  · intro s
    refine ⟨?_, ?_, rfl, ?_⟩
    · cases hp : pyIntParse s with
      | none => simp [isint_try, int_try, pyIntV, hp]
      | some n => simp [isint_try, int_try, pyIntV, hp]
    · cases hp : pyFloatParse s with
      | none => simp [isfloat_try, float_try, pyFloatV, hp]
      | some f => simp [isfloat_try, float_try, pyFloatV, hp]
    · intro hm
      obtain ⟨n, hn⟩ := intMatch_imp_parse hm
      exact ⟨n, by simp [int_re, hm, pyIntV, hn, Except.map]⟩
  · intro s f hp
    constructor
    · simp [isreal_try, pyFloatV, hp]
    · simp [real_try, pyFloatV, hp, pyIntF]

/-- Witness for claim C4 at the concrete strings "42" and "1.5". -/
theorem claim_C4_amended_witness :
    isint_try (.str ['4','2']) = .ok true ∧
    real_try (.str ['1','.','5']) = .ok (.int 1) := by
  constructor
  · exact ((claim_C4_amended.1 ['4','2']).1).mpr ⟨42, by decide⟩
  · have h := claim_C4_amended.2 ['1','.','5'] (3 * ipow2 1073) (by decide)
    have hv : ((3 : ℤ) * ipow2 1073).tdiv (ipow2 1074) = 1 := by decide
    rw [hv] at h
    exact h.2

/-- Counterexample to claim C4 as stated: predicates and conversions disagree
on numeric input (is_int False / to_int succeeds on a float; is_float False /
to_float succeeds on an int), is_intlike is False on the large integer-literal
string because its value does not survive the float round-trip, and on "nan"
is_real is True while real_try raises ValueError. -/
theorem claim_C4_counterexample :
    isint_try (.float (.finite (3 * ipow2 1074))) = .ok false ∧
    int_try (.float (.finite (3 * ipow2 1074))) = .ok (.int 3) ∧
    isfloat_try (.int 42) = .ok false ∧
    float_try (.int 42) = .ok (.float (.finite (42 * ipow2 1074))) ∧
    isintlike_try (.str "35892482945872302493947939485729".toList) = .ok false ∧
    isreal_try (.str ['n','a','n']) = .ok true ∧
    real_try (.str ['n','a','n']) = .error .valueError := by
  refine ⟨by decide, by decide, by decide, by decide, by decide, by decide, by decide⟩

/-- Claim C5: every string rejected by both int() and float() - such as
"not_a_number", "1__2" and "1e" - makes the four try-based conversion
functions return the original input unchanged, with no exception escaping. -/
theorem claim_C5 (s : List Char) (h1 : pyIntParse s = Option.none)
    (h2 : pyFloatParse s = Option.none) :
    int_try (.str s) = .ok (.str s) ∧ float_try (.str s) = .ok (.str s) ∧
    real_try (.str s) = .ok (.str s) ∧ forceint_try (.str s) = .ok (.str s) := by
  refine ⟨?_, ?_, ?_, ?_⟩ <;>
    simp [int_try, float_try, real_try, forceint_try, pyIntV, pyFloatV, h1, h2]

/-- Witness for claim C5 at the catalog inputs "not_a_number", "1__2", "1e". -/
theorem claim_C5_witness :
    (int_try (.str "not_a_number".toList) = .ok (.str "not_a_number".toList) ∧
     float_try (.str "not_a_number".toList) = .ok (.str "not_a_number".toList) ∧
     real_try (.str "not_a_number".toList) = .ok (.str "not_a_number".toList) ∧
     forceint_try (.str "not_a_number".toList) = .ok (.str "not_a_number".toList)) ∧
    (int_try (.str "1__2".toList) = .ok (.str "1__2".toList) ∧
     float_try (.str "1__2".toList) = .ok (.str "1__2".toList) ∧
     real_try (.str "1__2".toList) = .ok (.str "1__2".toList) ∧
     forceint_try (.str "1__2".toList) = .ok (.str "1__2".toList)) ∧
    (int_try (.str "1e".toList) = .ok (.str "1e".toList) ∧
     float_try (.str "1e".toList) = .ok (.str "1e".toList) ∧
     real_try (.str "1e".toList) = .ok (.str "1e".toList) ∧
     forceint_try (.str "1e".toList) = .ok (.str "1e".toList)) :=
  ⟨claim_C5 _ (by decide) (by decide), claim_C5 _ (by decide) (by decide),
   claim_C5 _ (by decide) (by decide)⟩

/-- Claim C6: on input that is neither text nor numeric (None, a list), all
eight conversion functions raise TypeError; and in the spec-modelled dispatch,
the TypeError is independent of the configured on_fail policy, which governs
only ValueError outcomes. -/
theorem claim_C6 :
    (int_try .none = .error .typeError ∧ int_try .listv = .error .typeError ∧
     int_re .none = .error .typeError ∧ int_re .listv = .error .typeError ∧
     float_try .none = .error .typeError ∧ float_try .listv = .error .typeError ∧
     float_re .none = .error .typeError ∧ float_re .listv = .error .typeError ∧
     real_try .none = .error .typeError ∧ real_try .listv = .error .typeError ∧
     real_re .none = .error .typeError ∧ real_re .listv = .error .typeError ∧
     forceint_try .none = .error .typeError ∧ forceint_try .listv = .error .typeError ∧
     forceint_re .none = .error .typeError ∧ forceint_re .listv = .error .typeError) ∧
    (∀ p : OnFail,
      withOnFail (fun v => (pyIntV v).map PyVal.int) p .none = .error .typeError ∧
      withOnFail (fun v => (pyIntV v).map PyVal.int) p .listv = .error .typeError ∧
      withOnFail (fun v => (pyFloatV v).map PyVal.float) p .none = .error .typeError ∧
      withOnFail (fun v => (pyFloatV v).map PyVal.float) p .listv = .error .typeError) := by
  refine ⟨by decide, fun p => ⟨rfl, rfl, rfl, rfl⟩⟩

/-- Claim C7: an integer-typed input passes straight through - int(), the
regex handler paths, and force-int all return it unchanged, and the is_int
predicates answer True - with no scanning performed (structurally, the .int
branch of the builtins never consults the string parsers). -/
theorem claim_C7 (n : ℤ) :
    int_try (.int n) = .ok (.int n) ∧ int_re (.int n) = .ok (.int n) ∧
    forceint_try (.int n) = .ok (.int n) ∧ forceint_re (.int n) = .ok (.int n) ∧
    isint_try (.int n) = .ok true ∧ isint_re (.int n) = .ok true :=
  ⟨rfl, rfl, rfl, rfl, rfl, rfl⟩

/-- Claim C8 (amended): a literal with one or more digits before the decimal
point and none after, such as "1.", is accepted by the Python-float based
functions (float_try succeeds, isfloat_try is True) but REJECTED by the
regex-based ones (float_re returns the input, isfloat_re is False), because
the pattern requires at least one digit after the optional point; a lone
decimal point or a lone sign is rejected by every variant.  The original
claim, which asserts acceptance for is_float/to_float generally, fails on the
cited regex functions; see the counterexample. -/
theorem claim_C8_amended (ds : List Char) (h1 : ds ≠ [])
    (h2 : ∀ c ∈ ds, c.isDigit = true) :
    float_try (.str (ds ++ ['.'])) =
        .ok (.float (roundFrac ((natOfDigits ds : ℕ) : ℤ) 1)) ∧
    isfloat_try (.str (ds ++ ['.'])) = .ok true ∧
    float_re (.str (ds ++ ['.'])) = .ok (.str (ds ++ ['.'])) ∧
    isfloat_re (.str (ds ++ ['.'])) = .ok false ∧
    float_try (.str ['.']) = .ok (.str ['.']) ∧
    isfloat_try (.str ['.']) = .ok false ∧
    isfloat_re (.str ['.']) = .ok false ∧
    float_try (.str ['+']) = .ok (.str ['+']) ∧
    isfloat_re (.str ['+']) = .ok false := by
  have hfp := pyFloatParse_digitsDot h1 h2
  have hfm := floatMatch_digitsDot h1 h2
  refine ⟨?_, ?_, ?_, ?_, by decide, by decide, by decide, by decide, by decide⟩
  · simp [float_try, pyFloatV, hfp]
  · simp [isfloat_try, pyFloatV, hfp]
  · simp [float_re, hfm]
  · simp [isfloat_re, hfm]

/-- Witness for claim C8 at the concrete literal "1.". -/
theorem claim_C8_amended_witness :
    float_try (.str ['1','.']) = .ok (.float (.finite (ipow2 1074))) ∧
    isfloat_try (.str ['1','.']) = .ok true ∧
    float_re (.str ['1','.']) = .ok (.str ['1','.']) ∧
    isfloat_re (.str ['1','.']) = .ok false := by
  have h := claim_C8_amended ['1'] (by decide) (by decide)
  have hv : roundFrac ((natOfDigits ['1'] : ℕ) : ℤ) 1 = .finite (ipow2 1074) := by decide
  rw [hv] at h
  exact ⟨h.1, h.2.1, h.2.2.1, h.2.2.2.1⟩

/-- Counterexample to claim C8 as stated: the cited regex recognizers reject
"1." - isfloat_re answers False and float_re returns the input as a failure -
although the try-based variant accepts it. -/
theorem claim_C8_counterexample :
    isfloat_re (.str ['1','.']) = .ok false ∧
    float_re (.str ['1','.']) = .ok (.str ['1','.']) ∧
    isfloat_try (.str ['1','.']) = .ok true := by
  refine ⟨by decide, by decide, by decide⟩

/-- Claim C10 (amended): the regex-based predicates discriminate numeric input
purely by static type (is_int true exactly on ints, is_float true exactly on
floats, regardless of value), and the try-based ones agree on every finite or
nan float and on every int whose float() conversion does not overflow; but
isint_try raises OverflowError on an infinite float and isfloat_try raises
OverflowError on an int too large for binary64, instead of returning False;
see the counterexample. -/
theorem claim_C10_amended :
    (∀ n : ℤ, isint_re (.int n) = .ok true ∧ isfloat_re (.int n) = .ok false ∧
      isint_try (.int n) = .ok true) ∧
    (∀ f : PyFloat, isint_re (.float f) = .ok false ∧ isfloat_re (.float f) = .ok true ∧
      isfloat_try (.float f) = .ok true) ∧
    (∀ q : ℤ, isint_try (.float (.finite q)) = .ok false) ∧
    (isint_try (.float .nan) = .ok false) ∧
    (∀ n m : ℤ, roundFrac n 1 = .finite m → isfloat_try (.int n) = .ok false) := by
  refine ⟨fun n => ⟨rfl, rfl, rfl⟩, fun f => ⟨rfl, rfl, rfl⟩, fun q => rfl, rfl, ?_⟩
  intro n m hm
  simp [isfloat_try, pyFloatV, hm]

/-- Witness for claim C10 at a concrete integer-valued float and int. -/
theorem claim_C10_amended_witness :
    isint_try (.float (.finite (3 * ipow2 1074))) = .ok false ∧
    isfloat_try (.int 42) = .ok false := by
  constructor
  · exact claim_C10_amended.2.2.1 (3 * ipow2 1074)
  · exact claim_C10_amended.2.2.2.2 42 (42 * ipow2 1074) (by decide)

/-- Counterexample to claim C10 as stated: isint_try on the float infinity
raises OverflowError instead of returning False, and isfloat_try on the
integer 2 ^ 1100 raises OverflowError instead of returning False. -/
theorem claim_C10_counterexample :
    isint_try (.float .inf) = .error .overflowError ∧
    isfloat_try (.int (ipow2 1100)) = .error .overflowError := by
  refine ⟨by decide, by decide⟩
